import Mathlib

/-!
Verification of the rally-segmentation engine of the badminton match analyzer
(`backend/app/core/rally_segmentation.py`, class `RallySegmenter`).

The engine's numeric pipeline is embedded shallowly:

* Python floats are modelled as exact rationals (`ℚ`).
* `int(x)` (truncation toward zero) is `pyInt`.
* `pandas.Series.rolling(window, center=True, min_periods=1).mean()` is
  `rollingMean`; `Series.mean()` is `seriesMean`; `Series.std()` (which uses
  `ddof = 1`, the sample standard deviation) appears through `seriesVarSample`.
* Comparisons of the form `x > mean + c * std` are encoded without square
  roots as `mean < x ∧ c^2 * var < (x - mean)^2`, which is equivalent over the
  reals (proved in `activeFlag_iff_real` below) and keeps every definition
  executable.
* Every call to `random.uniform`, `random.random`, `random.randint` or
  `random.choice` is modelled by an explicit input (a draw), constrained where
  needed by hypotheses matching the support of the distribution the code uses.
* The OpenCV frame I/O in `analyze_motion` is outside the embedding; the
  detector is analyzed as a function of the motion series it consumes
  (`self.motion_data`), which that pass produces in strictly increasing frame
  order.

Class constants (`rally_segmentation.py` lines 60-64):
`MIN_RALLY_DURATION = 2.0`, `MAX_RALLY_DURATION = 120.0`,
`IDLE_THRESHOLD = 3.0`, `MOTION_THRESHOLD = 500` (the last is unused by the
functions analyzed here).
-/

attribute [local semireducible] Rat.add Rat.mul Rat.inv Rat.sub

namespace RallySeg

/-- Python `int(x)` for a rational `x`: truncation toward zero (`num.tdiv den`
on the reduced fraction). -/
def pyInt (q : ℚ) : ℤ := q.num.tdiv q.den

/-- One element of `self.motion_data`: a dict `{'frame': n, 'time': n / fps,
'motion': score}` (lines 126-130).  The `time` entry is determined by `frame`
and never read by the functions below, so it is not carried. -/
structure MotionSample where
  frame : ℤ
  motion : ℚ
deriving DecidableEq

/-- `df['motion'].rolling(window=w, center=True, min_periods=1).mean()`
(line 160).  pandas places the label at the center of each window: the window
for index `i` covers indices `[i + off + 1 - w, i + off]` with
`off = (w - 1) / 2`, clipped to the series; `min_periods=1` means a clipped
window averages whatever elements remain. -/
def rollingMean (w : ℕ) (xs : List ℚ) : List ℚ :=
  (List.range xs.length).map fun i =>
    let off := (w - 1) / 2
    let lo := i + off + 1 - w
    let hi := min (xs.length - 1) (i + off)
    let seg := (xs.drop lo).take (hi + 1 - lo)
    seg.sum / (seg.length : ℚ)

/-- `Series.mean()` (line 163). -/
def seriesMean (xs : List ℚ) : ℚ := xs.sum / (xs.length : ℚ)

/-- The square of `Series.std()` (line 164).  pandas `std` defaults to
`ddof = 1`: the sum of squared deviations is divided by `n - 1` (sample
variance), not by `n`. -/
def seriesVarSample (xs : List ℚ) : ℚ :=
  ((xs.map (fun x => (x - seriesMean xs) ^ 2)).sum) / ((xs.length : ℚ) - 1)

/-- Population variance (sum of squared deviations divided by `n`).  Modelled
from the spec's words "population standard deviation"; it exists only to be
compared against `seriesVarSample`, which is what the code computes. -/
def seriesVarPop (xs : List ℚ) : ℚ :=
  ((xs.map (fun x => (x - seriesMean xs) ^ 2)).sum) / (xs.length : ℚ)

/-- `df['motion_smooth'] > threshold` where
`threshold = motion_mean + motion_std * 0.5` (lines 165, 169), encoded without
the square root: over the reals `x > m + (1/2)·√v  ↔  m < x ∧ (1/2)²·v < (x-m)²`
for `v ≥ 0` (see `activeFlag_iff_real`). -/
def activeFlag (m v x : ℚ) : Bool :=
  decide (m < x ∧ (1/4) * v < (x - m) ^ 2)

/-- `df['motion_smooth'] < low_threshold` where
`low_threshold = motion_mean - motion_std * 0.3` (lines 166, 170), encoded
without the square root: `x < m - (3/10)·√v ↔ x < m ∧ (3/10)²·v < (m-x)²`. -/
def idleFlag (m v x : ℚ) : Bool :=
  decide (x < m ∧ (9/100) * v < (m - x) ^ 2)

/-- `window_size = max(5, int(self.fps / 2))` (line 159).  The window counts
samples of the motion series (the code's comment says "~0.5 second window",
but the series holds about 5 samples per second, so at fps=30 this is a
15-sample, ≈3 second window). -/
def smoothWindow (fps : ℚ) : ℕ := (max 5 (pyInt (fps / 2))).toNat

/-- `df['motion_smooth']` (line 160): the smoothed motion series. -/
def smoothSeries (fps : ℚ) (motion : List MotionSample) : List ℚ :=
  rollingMean (smoothWindow fps) (motion.map (·.motion))

/-- Lines 156-170: smoothing followed by adaptive thresholding.  Entry `i` is
`(active, idle)` for sample `i` of the motion series. -/
def classifyFlags (fps : ℚ) (motion : List MotionSample) : List (Bool × Bool) :=
  let sm := smoothSeries fps motion
  let m := seriesMean sm
  let v := seriesVarSample sm
  sm.map (fun x => (activeFlag m v x, idleFlag m v x))

/-- Classification as the spec's sentence describes it, with the population
standard deviation in both thresholds; only used to compare with
`classifyFlags`. -/
def classifyFlagsPopStd (fps : ℚ) (motion : List MotionSample) : List (Bool × Bool) :=
  let sm := smoothSeries fps motion
  let m := seriesMean sm
  let v := seriesVarPop sm
  sm.map (fun x => (activeFlag m v x, idleFlag m v x))

/-- The mutable locals of the loop at lines 173-202: `in_rally`, `rally_start`,
`idle_start` and the accumulated `rally_segments`. -/
structure DetState where
  inRally : Bool
  rallyStart : ℤ
  idleStart : Option ℤ
  segs : List (ℤ × ℤ)
deriving DecidableEq

/-- One iteration of `for idx, row in df.iterrows()` (lines 181-202).  A row is
`(frame, (active, idle))`. -/
def detectStep (minF idleF : ℤ) (st : DetState) (row : ℤ × Bool × Bool) : DetState :=
  let f := row.1
  let a := row.2.1
  let i := row.2.2
  if st.inRally = false then
    if a then { st with inRally := true, rallyStart := f, idleStart := none } else st
  else
    if i then
      match st.idleStart with
      | none => { st with idleStart := some f }
      | some t =>
        if idleF < f - t then
          let segs' := if minF < f - st.rallyStart then st.segs ++ [(st.rallyStart, t)] else st.segs
          { st with inRally := false, idleStart := none, segs := segs' }
        else st
    else { st with idleStart := none }

/-- The two-state walk over the classified rows plus the trailing-rally fixup
(lines 173-208): run the loop from `in_rally = False, rally_start = 0,
idle_start = None`, then, if still in a rally at the end of the series and the
span from `rally_start` to the last row's frame exceeds `min_rally_frames`,
append that final open segment. -/
def detect_machine (minF idleF : ℤ) (rows : List (ℤ × Bool × Bool)) : List (ℤ × ℤ) :=
  let st := rows.foldl (detectStep minF idleF) ⟨false, 0, none, []⟩
  match (rows.map (·.1)).getLast? with
  | some lf =>
    if st.inRally = true ∧ minF < lf - st.rallyStart then st.segs ++ [(st.rallyStart, lf)]
    else st.segs
  | none => st.segs

/-- Lines 156-208 of `detect_rally_boundaries`: classify the motion series and
walk it with `min_rally_frames = int(MIN_RALLY_DURATION * fps)` and
`idle_threshold_frames = int(IDLE_THRESHOLD * fps)`. -/
def machineSegs (fps : ℚ) (motion : List MotionSample) : List (ℤ × ℤ) :=
  let rows := (motion.map (·.frame)).zip (classifyFlags fps motion)
  detect_machine (pyInt (2 * fps)) (pyInt (3 * fps)) rows

/-- `avg_rally_duration` (lines 226-229): 15 seconds when
`self.duration < 300`, else 25.  `duration = frame_count / fps` (line 85). -/
def avgRallyDuration (fps : ℚ) (frameCount : ℤ) : ℚ :=
  if (frameCount : ℚ) / fps < 300 then 15 else 25

/-- Lower end of `random.uniform(max(5, avg - 10), min(45, avg + 15))`
(lines 236-239). -/
def fallbackLo (fps : ℚ) (frameCount : ℤ) : ℚ :=
  max 5 (avgRallyDuration fps frameCount - 10)

/-- Upper end of `random.uniform(max(5, avg - 10), min(45, avg + 15))`
(lines 236-239). -/
def fallbackHi (fps : ℚ) (frameCount : ℤ) : ℚ :=
  min 45 (avgRallyDuration fps frameCount + 15)

/-- The `while current_time < self.duration - 5` loop of
`_create_time_based_rallies` (lines 232-251).  Each iteration consumes one
draw pair `(rally_duration, gap)` standing for its two `random.uniform` calls;
a run of the original corresponds to a sufficiently long draw list. -/
def fallbackLoop (fps : ℚ) (frameCount : ℤ) (dur : ℚ) :
    ℚ → List (ℚ × ℚ) → List (ℤ × ℤ)
  | _, [] => []
  | ct, (rd, gap) :: rest =>
    if ct < dur - 5 then
      let s := pyInt (ct * fps)
      let e := pyInt ((ct + rd) * fps)
      if frameCount ≤ e then []
      else (s, e) :: fallbackLoop fps frameCount dur (ct + rd + gap) rest
    else []

/-- `RallySegmenter._create_time_based_rallies` (lines 217-254):
`current_time` starts at 2 (skip the first two seconds);
`duration = frame_count / fps`. -/
def create_time_based_rallies (fps : ℚ) (frameCount : ℤ) (draws : List (ℚ × ℚ)) :
    List (ℤ × ℤ) :=
  fallbackLoop fps frameCount ((frameCount : ℚ) / fps) 2 draws

/-- `RallySegmenter.detect_rally_boundaries` (lines 144-215): with fewer than
10 motion samples the fallback is used unconditionally (smoothing,
thresholding and the state machine are never evaluated); otherwise the state
machine runs, and an empty result again falls through to the fallback.
Neither fallback path raises: the function totally returns a segment list. -/
def detect_rally_boundaries (fps : ℚ) (frameCount : ℤ) (draws : List (ℚ × ℚ))
    (motion : List MotionSample) : List (ℤ × ℤ) :=
  if motion.length < 10 then create_time_based_rallies fps frameCount draws
  else
    let segs := machineSegs fps motion
    if segs = [] then create_time_based_rallies fps frameCount draws else segs

/-- The dataclass `HitPoint` (lines 36-44). -/
structure HitPoint where
  frame : ℤ
  time : ℚ
  x : ℚ
  y : ℚ
  player : Option String
  shot_type : Option String
deriving DecidableEq

/-- `RallySegmenter.estimate_hits_in_rally` (lines 256-295).  `sps` models
`random.uniform(0.5, 1.2)`; `jit i` models the `random.randint(-5, 5)` jitter
of shot `i`; `xr i` and `yr i` model the positional `random.uniform` draws
(whose band depends on the player of shot `i`). -/
def estimate_hits_in_rally (fps width height : ℚ) (sps : ℚ) (jit : ℕ → ℤ)
    (xr yr : ℕ → ℚ) (start_frame end_frame : ℤ) : List HitPoint :=
  let duration := ((end_frame - start_frame : ℤ) : ℚ) / fps
  let estimated_shots : ℤ := max 2 (pyInt (duration * sps))
  let shot_interval := ((end_frame - start_frame : ℤ) : ℚ) / ((estimated_shots : ℚ) + 1)
  (List.range estimated_shots.toNat).map fun (i : ℕ) =>
    let f0 := pyInt ((start_frame : ℚ) + shot_interval * ((i : ℚ) + 1)) + jit i
    let f := max start_frame (min end_frame f0)
    let player := if i % 2 = 0 then "Player A" else "Player B"
    { frame := f, time := (f : ℚ) / fps, x := width * xr i, y := height * yr i,
      player := some player, shot_type := none }

/-- The dataclass `Rally` (lines 20-34).  `shots` and `mistakes` hold dicts
produced by collaborators outside this engine; their entries are modelled as
opaque association lists. -/
structure Rally where
  rally_number : ℤ
  start_frame : ℤ
  end_frame : ℤ
  start_time : ℚ
  end_time : ℚ
  duration : ℚ
  winner : Option String
  end_reason : Option String
  shots : List (List (String × String))
  mistakes : List (List (String × String))
  description : String
  clip_path : Option String

/-- `RallySegmenter._determine_winner` (lines 297-302); `r` models
`random.random()`.  The `rally_num` and `end_reason` parameters are accepted
and ignored, as in the source. -/
def determine_winner (_rally_num : ℤ) (_end_reason : String) (r : ℚ) : String :=
  if r < 55/100 then "Player A" else "Player B"

/-- `RallySegmenter._determine_end_reason` (lines 304-333); `r` models
`random.random()`. -/
def determine_end_reason (duration : ℚ) (r : ℚ) : String :=
  if duration < 5 then
    if r < 3/10 then "net" else if r < 5/10 then "out" else "in_court"
  else if duration < 15 then
    if r < 15/100 then "net" else if r < 25/100 then "out" else "in_court"
  else
    if r < 1/10 then "net" else if r < 2/10 then "out" else "in_court"

/-- Python's `{x:.1f}` format for the nonnegative rationals this engine prints
(one fractional digit; the original rounds the nearest binary double, which
agrees on every value reached here). -/
def format1 (q : ℚ) : String :=
  let m := (⌊q * 10 + 1/2⌋).toNat
  toString (m / 10) ++ "." ++ toString (m % 10)

/-- `RallySegmenter._generate_rally_description` (lines 335-369).  `tIdx` and
`eIdx` model the two `random.choice` calls (each an index below 3). -/
def generate_rally_description (r : Rally) (tIdx eIdx : ℕ) : String :=
  let templates := [
    "Rally " ++ toString r.rally_number ++ ": A " ++ format1 r.duration ++
      " second exchange with " ++ toString r.shots.length ++ " shots. ",
    "Rally " ++ toString r.rally_number ++ ": " ++ toString r.shots.length ++
      " shot rally lasting " ++ format1 r.duration ++ " seconds. ",
    "Rally " ++ toString r.rally_number ++ ": An intense " ++ format1 r.duration ++
      " second rally featuring " ++ toString r.shots.length ++ " shots. "]
  let endings :=
    if r.end_reason = some "net" then
      ["Ended with a net error. ", "The shuttlecock clipped the net. ",
       "A net shot went into the net. "]
    else if r.end_reason = some "out" then
      ["Ended with the shuttlecock going out. ", "A powerful shot sailed out of bounds. ",
       "The return went long. "]
    else
      ["Ended with a clean winner. ", "A decisive shot won the point. ",
       "The rally ended with an unreturnable shot. "]
  let base := templates.getD tIdx "" ++ endings.getD eIdx ""
  match r.winner with
  | some w => if w = "" then base else base ++ w ++ " won this rally."
  | none => base

/-- One iteration of the rally-building loop of `RallySegmenter.segment_rallies`
(lines 452-473), building the `Rally` for the `i`-th segment `seg`.  `rEnd` and
`rWin` model the `random.random()` draws inside `_determine_end_reason` and
`_determine_winner`; `tIdx`, `eIdx` the `random.choice` draws inside
`_generate_rally_description`. -/
def buildRally (fps : ℚ) (i : ℕ) (seg : ℤ × ℤ) (rEnd rWin : ℚ) (tIdx eIdx : ℕ) : Rally :=
  let duration := ((seg.2 - seg.1 : ℤ) : ℚ) / fps
  let end_reason := determine_end_reason duration rEnd
  let winner := determine_winner ((i : ℤ) + 1) end_reason rWin
  let r : Rally := {
    rally_number := (i : ℤ) + 1
    start_frame := seg.1
    end_frame := seg.2
    start_time := (seg.1 : ℚ) / fps
    end_time := (seg.2 : ℚ) / fps
    duration := duration
    winner := some winner
    end_reason := some end_reason
    shots := []
    mistakes := []
    description := ""
    clip_path := none }
  { r with description := generate_rally_description r tIdx eIdx }

/-- The percent values of the progress notifications emitted by a run of
`RallySegmenter.segment_rallies_async` (lines 371-432) over `n` rally
segments, in program order: the awaited `progress_callback` percents (0, 45,
70) interleaved with the yielded `progress` values (40, 60, one value
`70 + (i / n) * 25` per rally, and the final 95). -/
def progressSeq (n : ℕ) : List ℚ :=
  [0, 40, 45, 60, 70] ++
    (List.range n).map (fun (i : ℕ) => 70 + ((i : ℚ) / (n : ℚ)) * 25) ++ [95]

/-! Concrete motion series used by the claims below.  Frames are spaced the
way `analyze_motion` spaces them (`sample_interval = max(1, int(fps/5))`
frames apart, first sample dropped): step 2 at fps = 10, step 6 at fps = 30. -/

/-- fps = 10 series, frames 2, 4, …, 80: a baseline of 100 for 10 samples, a
2-sample spike of 2000 (whose active classification spans 1.0 s < 2.0 s), then
motion 0 for the remaining 28 samples (persistent idle). -/
def c1Motion : List MotionSample :=
  (List.range 40).map fun k =>
    ⟨2 * ((k : ℤ) + 1), if k < 10 then 100 else if k < 12 then 2000 else 0⟩

/-- fps = 10 series of 10 samples with motion values 11, 7, 7, 14, 9, 0, 13,
17, 20, 3 at frames 2, 4, …, 20. -/
def c3Motion : List MotionSample :=
  (List.range 10).map fun (k : ℕ) =>
    { frame := 2 * ((k : ℤ) + 1),
      motion := [(11:ℚ), 7, 7, 14, 9, 0, 13, 17, 20, 3].getD k 0 }

/-- Two-sample series used to instantiate the threshold-equivalence theorem:
motion 4 then 6 at fps = 10, whose smoothed series is [5, 5]. -/
def c3wMotion : List MotionSample := [⟨2, 4⟩, ⟨4, 6⟩]

/-- fps = 30 series, frames 6, 12, …, 714 (119 samples): motion 1000 for 4
seconds then 0 for 4 seconds, repeated three times (period 240 frames over a
720-frame, 24-second span). -/
def c5Motion : List MotionSample :=
  (List.range 119).map fun k =>
    ⟨6 * ((k : ℤ) + 1), if (6 * (k + 1)) % 240 < 120 then 1000 else 0⟩

/-- fps = 10 series, frames 2, 4, …, 160: baseline 100 (10 samples), a spike
of 1500 (15 samples), a dip to 0 for 10 samples — an idle gap spanning 14
frames = 1.4 s < IDLE_THRESHOLD — a second 1500 spike (15 samples), then 0 for
the remaining 30 samples. -/
def c6Motion : List MotionSample :=
  (List.range 80).map fun k =>
    ⟨2 * ((k : ℤ) + 1),
      if k < 10 then 100 else if k < 25 then 1500
      else if k < 35 then 0 else if k < 50 then 1500 else 0⟩

/-! Helper lemmas. -/

theorem pyInt_eq_floor (q : ℚ) (h : 0 ≤ q) : pyInt q = ⌊q⌋ := by
  unfold pyInt
  rw [Rat.floor_def]
  exact Int.tdiv_eq_ediv (Rat.num_nonneg.mpr h) (by positivity)

theorem pyInt_nonneg (q : ℚ) (h : 0 ≤ q) : 0 ≤ pyInt q := by
  rw [pyInt_eq_floor q h]
  exact Int.floor_nonneg.mpr h

theorem pyInt_mono (p q : ℚ) (hp : 0 ≤ p) (hpq : p ≤ q) : pyInt p ≤ pyInt q := by
  rw [pyInt_eq_floor p hp, pyInt_eq_floor q (hp.trans hpq)]
  exact Int.floor_le_floor hpq

theorem append_ne_empty_left (s t : String) (h : s ≠ "") : s ++ t ≠ "" := by
  intro hc
  apply h
  have hl := congrArg String.length hc
  rw [String.length_append] at hl
  have h0 : ("" : String).length = 0 := rfl
  rw [h0] at hl
  have hs : s.length = 0 := by omega
  cases s with
  | mk data =>
    cases data with
    | nil => rfl
    | cons c cs => simp [String.length] at hs

theorem getD_ne_empty (l : List String) (n : ℕ) (hn : n < l.length)
    (h : ∀ s ∈ l, s ≠ "") : l.getD n "" ≠ "" := by
  rw [List.getD_eq_getElem?_getD, List.getElem?_eq_getElem hn]
  exact h _ (List.getElem_mem hn)

theorem generate_rally_description_ne_empty (r : Rally) (tIdx eIdx : ℕ) (ht : tIdx < 3) :
    generate_rally_description r tIdx eIdx ≠ "" := by
  unfold generate_rally_description
  dsimp only
  have key : ∀ s ∈ [
      "Rally " ++ toString r.rally_number ++ ": A " ++ format1 r.duration ++
        " second exchange with " ++ toString r.shots.length ++ " shots. ",
      "Rally " ++ toString r.rally_number ++ ": " ++ toString r.shots.length ++
        " shot rally lasting " ++ format1 r.duration ++ " seconds. ",
      "Rally " ++ toString r.rally_number ++ ": An intense " ++ format1 r.duration ++
        " second rally featuring " ++ toString r.shots.length ++ " shots. "], s ≠ "" := by
    intro s hs
    fin_cases hs <;> (repeat apply append_ne_empty_left) <;> decide
  split <;> split_ifs <;> (repeat apply append_ne_empty_left) <;>
    exact getD_ne_empty _ _ (by simpa using ht) key

theorem rollingMean_length (w : ℕ) (xs : List ℚ) : (rollingMean w xs).length = xs.length := by
  simp [rollingMean]

theorem smoothSeries_length (fps : ℚ) (motion : List MotionSample) :
    (smoothSeries fps motion).length = motion.length := by
  simp [smoothSeries, rollingMean_length]

theorem classifyFlags_length (fps : ℚ) (motion : List MotionSample) :
    (classifyFlags fps motion).length = motion.length := by
  simp [classifyFlags, smoothSeries_length]

theorem zip_map_self {α β : Type} (f : α → β) :
    ∀ l : List α, l.zip (l.map f) = l.map fun x => (x, f x)
  | [] => rfl
  | a :: l => by simp [zip_map_self f l]

theorem seriesVarSample_nonneg (xs : List ℚ) (h2 : 2 ≤ xs.length) :
    0 ≤ seriesVarSample xs := by
  unfold seriesVarSample
  apply div_nonneg
  · apply List.sum_nonneg
    intro x hx
    obtain ⟨y, _, rfl⟩ := List.mem_map.mp hx
    positivity
  · have : (2 : ℚ) ≤ (xs.length : ℚ) := by exact_mod_cast h2
    linarith

theorem lt_add_mul_sqrt_iff (m v x c : ℝ) (hv : 0 ≤ v) (hc : 0 < c) :
    m + c * Real.sqrt v < x ↔ m < x ∧ c ^ 2 * v < (x - m) ^ 2 := by
  have hs0 : 0 ≤ Real.sqrt v := Real.sqrt_nonneg v
  have hcs : 0 ≤ c * Real.sqrt v := by positivity
  constructor
  · intro h
    have hmx : m < x := by nlinarith
    refine ⟨hmx, ?_⟩
    have h1 : c * Real.sqrt v < x - m := by linarith
    have h2 : (c * Real.sqrt v) ^ 2 < (x - m) ^ 2 := by nlinarith
    have h3 : (c * Real.sqrt v) ^ 2 = c ^ 2 * v := by
      rw [mul_pow, Real.sq_sqrt hv]
    linarith
  · rintro ⟨hmx, hsq⟩
    have h1 : Real.sqrt (c ^ 2 * v) < Real.sqrt ((x - m) ^ 2) :=
      Real.sqrt_lt_sqrt (by positivity) hsq
    rw [Real.sqrt_sq (by linarith), Real.sqrt_mul (by positivity) v,
      Real.sqrt_sq hc.le] at h1
    linarith

theorem lt_sub_mul_sqrt_iff (m v x c : ℝ) (hv : 0 ≤ v) (hc : 0 < c) :
    x < m - c * Real.sqrt v ↔ x < m ∧ c ^ 2 * v < (m - x) ^ 2 := by
  have key := lt_add_mul_sqrt_iff (-m) v (-x) c hv hc
  have hsq : (-x - -m) ^ 2 = (m - x) ^ 2 := by ring
  constructor
  · intro h
    obtain ⟨h1, h2⟩ := key.mp (by linarith)
    rw [hsq] at h2
    exact ⟨by linarith, h2⟩
  · rintro ⟨h1, h2⟩
    have := key.mpr ⟨by linarith, by rw [hsq]; exact h2⟩
    linarith

theorem fallbackLoop_mem (fps : ℚ) (fc : ℤ) (dur : ℚ) (_hfps : 0 < fps) :
    ∀ (draws : List (ℚ × ℚ)) (ct : ℚ), 2 ≤ ct →
      (∀ d ∈ draws, 0 ≤ d.1 ∧ 0 ≤ d.2) →
      ∀ p ∈ fallbackLoop fps fc dur ct draws,
        ∃ ct' rd, 2 ≤ ct' ∧ (∃ gap, (rd, gap) ∈ draws) ∧
          p.1 = pyInt (ct' * fps) ∧ p.2 = pyInt ((ct' + rd) * fps) ∧ p.2 < fc := by
  intro draws
  induction draws with
  | nil =>
    intro ct _ _ p hp
    simp [fallbackLoop] at hp
  | cons d rest ih =>
    intro ct hct hd p hp
    obtain ⟨rd, gap⟩ := d
    have hrd : 0 ≤ rd := (hd (rd, gap) (List.mem_cons_self _ _)).1
    have hgap : 0 ≤ gap := (hd (rd, gap) (List.mem_cons_self _ _)).2
    simp only [fallbackLoop] at hp
    split_ifs at hp with h1 h2
    · simp at hp
    · rcases List.mem_cons.mp hp with rfl | hp'
      · exact ⟨ct, rd, hct, ⟨gap, List.mem_cons_self _ _⟩, rfl, rfl, by omega⟩
      · obtain ⟨ct', rd', hct', ⟨gap', hmem'⟩, he1, he2, he3⟩ :=
          ih (ct + rd + gap) (by linarith)
            (fun d hd' => hd d (List.mem_cons_of_mem _ hd')) p hp'
        exact ⟨ct', rd', hct', ⟨gap', List.mem_cons_of_mem _ hmem'⟩, he1, he2, he3⟩
    · simp at hp

theorem fallbackLoop_head_start (fps : ℚ) (fc : ℤ) (dur : ℚ)
    (draws : List (ℚ × ℚ)) (ct : ℚ) :
    ∀ p ∈ (fallbackLoop fps fc dur ct draws).head?, p.1 = pyInt (ct * fps) := by
  cases draws with
  | nil => simp [fallbackLoop]
  | cons d rest =>
    obtain ⟨rd, gap⟩ := d
    simp only [fallbackLoop]
    split_ifs <;> simp

theorem fallbackLoop_chain (fps : ℚ) (fc : ℤ) (dur : ℚ) (hfps : 1 ≤ fps) :
    ∀ (draws : List (ℚ × ℚ)) (ct : ℚ), 2 ≤ ct →
      (∀ d ∈ draws, 5 ≤ d.1 ∧ 3 ≤ d.2 ∧ d.2 ≤ 10) →
      List.Chain' (fun p q : ℤ × ℤ =>
          (p.2 ≤ q.1 ∧ p.1 < q.1) ∧
          3 * fps - 1 < ((q.1 - p.2 : ℤ) : ℚ) ∧ ((q.1 - p.2 : ℤ) : ℚ) < 10 * fps + 1)
        (fallbackLoop fps fc dur ct draws) := by
  have hfps0 : (0 : ℚ) < fps := lt_of_lt_of_le one_pos hfps
  intro draws
  induction draws with
  | nil =>
    intro ct _ _
    simp [fallbackLoop]
  | cons d rest ih =>
    intro ct hct hd
    obtain ⟨rd, gap⟩ := d
    have hb := hd (rd, gap) (List.mem_cons_self _ _)
    have hdrest : ∀ d ∈ rest, 5 ≤ d.1 ∧ 3 ≤ d.2 ∧ d.2 ≤ 10 :=
      fun d hd' => hd d (List.mem_cons_of_mem _ hd')
    simp only [fallbackLoop]
    split_ifs with h1 h2
    · exact List.chain'_nil
    · rw [List.chain'_cons']
      refine ⟨?_, ih (ct + rd + gap) (by linarith [hb.1, hb.2.1]) hdrest⟩
      intro q hq
      have hq1 := fallbackLoop_head_start fps fc dur rest (ct + rd + gap) q hq
      have h5 : (5 : ℚ) ≤ rd := hb.1
      have h3 : (3 : ℚ) ≤ gap := hb.2.1
      have h10 : gap ≤ 10 := hb.2.2
      have harg1 : (0 : ℚ) ≤ ct * fps := mul_nonneg (by linarith) hfps0.le
      have harg2 : (0 : ℚ) ≤ (ct + rd) * fps := mul_nonneg (by linarith) hfps0.le
      have harg3 : (0 : ℚ) ≤ (ct + rd + gap) * fps := mul_nonneg (by linarith) hfps0.le
      dsimp only
      rw [pyInt_eq_floor _ harg1, pyInt_eq_floor _ harg2]
      rw [pyInt_eq_floor _ harg3] at hq1
      have hfl2a : ((⌊(ct + rd) * fps⌋ : ℤ) : ℚ) ≤ (ct + rd) * fps := Int.floor_le _
      have hfl2b : (ct + rd) * fps - 1 < ((⌊(ct + rd) * fps⌋ : ℤ) : ℚ) := Int.sub_one_lt_floor _
      have hfl3a : ((⌊(ct + rd + gap) * fps⌋ : ℤ) : ℚ) ≤ (ct + rd + gap) * fps := Int.floor_le _
      have hfl3b : (ct + rd + gap) * fps - 1 < ((⌊(ct + rd + gap) * fps⌋ : ℤ) : ℚ) :=
        Int.sub_one_lt_floor _
      have hgl : 3 * fps ≤ gap * fps := mul_le_mul_of_nonneg_right h3 hfps0.le
      have hgh : gap * fps ≤ 10 * fps := mul_le_mul_of_nonneg_right h10 hfps0.le
      have hBAg : (ct + rd + gap) * fps = (ct + rd) * fps + gap * fps := by ring
      have hdiff_lo : 3 * fps - 1 < ((q.1 - ⌊(ct + rd) * fps⌋ : ℤ) : ℚ) := by
        rw [hq1]
        push_cast
        linarith
      have hdiff_hi : ((q.1 - ⌊(ct + rd) * fps⌋ : ℤ) : ℚ) < 10 * fps + 1 := by
        rw [hq1]
        push_cast
        linarith
      have hq1e : ⌊(ct + rd) * fps⌋ < q.1 := by
        have hpos : (0 : ℚ) < ((q.1 - ⌊(ct + rd) * fps⌋ : ℤ) : ℚ) := by linarith
        have : (0 : ℤ) < q.1 - ⌊(ct + rd) * fps⌋ := by exact_mod_cast hpos
        omega
      have hse : ⌊ct * fps⌋ ≤ ⌊(ct + rd) * fps⌋ := by
        apply Int.floor_le_floor
        have : ct ≤ ct + rd := by linarith
        exact mul_le_mul_of_nonneg_right this hfps0.le
      exact ⟨⟨hq1e.le, lt_of_le_of_lt hse hq1e⟩, hdiff_lo, hdiff_hi⟩
    · exact List.chain'_nil

/-- The ordering contract between consecutive segments of the output list:
the earlier segment ends no later than the next one starts, and the start
frames strictly increase. -/
def SegRel (p q : ℤ × ℤ) : Prop := p.2 ≤ q.1 ∧ p.1 < q.1

/-- Invariant of the boundary-walk loop, with `b` an upper bound on every
frame processed so far: the emitted segments are ordered (`SegRel`), have
positive extent and end by `b`; while a rally is open its start is a processed
frame larger than every emitted end, and a pending `idle_since` is a processed
frame inside the open rally. -/
structure LoopInv (st : DetState) (b : ℤ) : Prop where
  chain : List.Chain' SegRel st.segs
  ends : ∀ p ∈ st.segs, p.1 < p.2 ∧ p.2 ≤ b
  rally : st.inRally = true → st.rallyStart ≤ b ∧ ∀ p ∈ st.segs, p.2 < st.rallyStart
  idleB : st.inRally = true → ∀ t, st.idleStart = some t → st.rallyStart < t ∧ t ≤ b

theorem chain'_append_singleton (l : List (ℤ × ℤ)) (p : ℤ × ℤ)
    (hl : List.Chain' SegRel l) (hlt : ∀ q ∈ l, q.1 < q.2 ∧ q.2 < p.1) :
    List.Chain' SegRel (l ++ [p]) := by
  rw [List.chain'_append]
  refine ⟨hl, List.chain'_singleton _, ?_⟩
  intro x hx y hy
  simp only [List.head?_cons, Option.mem_def, Option.some.injEq] at hy
  subst hy
  have hx' := hlt x (List.mem_of_getLast?_eq_some hx)
  exact ⟨hx'.2.le, hx'.1.trans hx'.2⟩

/-- The frame of the last processed row, or `b` when no row was processed. -/
def lastBound (b : ℤ) (rows : List (ℤ × Bool × Bool)) : ℤ :=
  ((rows.map (·.1)).getLast?).getD b

theorem lastBound_cons (b : ℤ) (r : ℤ × Bool × Bool) (rest : List (ℤ × Bool × Bool)) :
    lastBound b (r :: rest) = lastBound r.1 rest := by
  unfold lastBound
  cases rest with
  | nil => simp
  | cons r' rest' =>
    simp only [List.map_cons, List.getLast?_cons_cons]
    cases h : (r'.1 :: List.map (·.1) rest').getLast? with
    | none => exact absurd h (by simp)
    | some x => rfl

theorem detectStep_inv (minF idleF : ℤ) (st : DetState) (b f : ℤ) (a i : Bool)
    (hb : b < f) (h : LoopInv st b) : LoopInv (detectStep minF idleF st (f, a, i)) f := by
  obtain ⟨ir, rs, idl, segs⟩ := st
  obtain ⟨hch, hends, hrally, hidle⟩ := h
  simp only at hch hends hrally hidle
  have hends' : ∀ p ∈ segs, p.1 < p.2 ∧ p.2 ≤ f :=
    fun p hp => ⟨(hends p hp).1, (hends p hp).2.trans hb.le⟩
  cases ir with
  | false =>
    cases a with
    | false =>
      show LoopInv ⟨false, rs, idl, segs⟩ f
      exact ⟨hch, hends', fun hc => by simp at hc, fun hc => by simp at hc⟩
    | true =>
      show LoopInv ⟨true, f, none, segs⟩ f
      refine ⟨hch, hends', ?_, ?_⟩
      · intro _
        exact ⟨le_refl _, fun p hp => lt_of_le_of_lt (hends p hp).2 hb⟩
      · intro _ t ht
        simp at ht
  | true =>
    cases i with
    | false =>
      show LoopInv ⟨true, rs, none, segs⟩ f
      refine ⟨hch, hends', ?_, ?_⟩
      · intro _
        exact ⟨(hrally rfl).1.trans hb.le, (hrally rfl).2⟩
      · intro _ t ht
        simp at ht
    | true =>
      cases idl with
      | none =>
        show LoopInv ⟨true, rs, some f, segs⟩ f
        refine ⟨hch, hends', ?_, ?_⟩
        · intro _
          exact ⟨(hrally rfl).1.trans hb.le, (hrally rfl).2⟩
        · intro _ t ht
          simp only [DetState.idleStart, Option.some.injEq] at ht
          subst ht
          exact ⟨lt_of_le_of_lt (hrally rfl).1 hb, le_refl _⟩
      | some t0 =>
        have hidle0 := hidle rfl t0 rfl
        show LoopInv
          (if idleF < f - t0 then
            (⟨false, rs, none, if minF < f - rs then segs ++ [(rs, t0)] else segs⟩ : DetState)
          else ⟨true, rs, some t0, segs⟩) f
        split_ifs with hgap hlen
        · -- rally ends and the span is long enough: emit (rs, t0)
          refine ⟨?_, ?_, ?_, ?_⟩
          · exact chain'_append_singleton segs (rs, t0) hch
              (fun q hq => ⟨(hends q hq).1, (hrally rfl).2 q hq⟩)
          · intro p hp
            rcases List.mem_append.mp hp with hp' | hp'
            · exact hends' p hp'
            · simp only [List.mem_singleton] at hp'
              subst hp'
              exact ⟨hidle0.1, hidle0.2.trans hb.le⟩
          · intro hc
            simp at hc
          · intro hc
            simp at hc
        · -- rally ends but the span is too short: nothing emitted
          exact ⟨hch, hends', fun hc => by simp at hc, fun hc => by simp at hc⟩
        · -- idle gap not yet long enough: state unchanged
          refine ⟨hch, hends', ?_, ?_⟩
          · intro _
            exact ⟨(hrally rfl).1.trans hb.le, (hrally rfl).2⟩
          · intro _ t ht
            simp only [Option.some.injEq] at ht
            subst ht
            exact ⟨hidle0.1, hidle0.2.trans hb.le⟩

theorem detectLoop_inv (minF idleF : ℤ) :
    ∀ (rows : List (ℤ × Bool × Bool)) (st : DetState) (b : ℤ),
      LoopInv st b →
      List.Pairwise (fun r r' : ℤ × Bool × Bool => r.1 < r'.1) rows →
      (∀ r ∈ rows, b < r.1) →
      LoopInv (rows.foldl (detectStep minF idleF) st) (lastBound b rows) := by
  intro rows
  induction rows with
  | nil =>
    intro st b h _ _
    simpa [lastBound] using h
  | cons r rest ih =>
    intro st b h hp hb
    obtain ⟨f, a, i⟩ := r
    rw [List.foldl_cons, lastBound_cons]
    apply ih
    · exact detectStep_inv minF idleF st b f a i (hb _ (List.mem_cons_self _ _)) h
    · exact hp.of_cons
    · intro r' hr'
      exact (List.pairwise_cons.mp hp).1 r' hr'

theorem detect_machine_chain (minF idleF : ℤ)
    (rows : List (ℤ × Bool × Bool))
    (hp : List.Pairwise (fun r r' : ℤ × Bool × Bool => r.1 < r'.1) rows) :
    List.Chain' SegRel (detect_machine minF idleF rows) := by
  cases rows with
  | nil => exact List.chain'_nil
  | cons r rest =>
    have hb : ∀ r' ∈ r :: rest, r.1 - 1 < r'.1 := by
      intro r' hr'
      rcases List.mem_cons.mp hr' with rfl | hr'
      · omega
      · have := (List.pairwise_cons.mp hp).1 r' hr'
        omega
    have hinit : LoopInv ⟨false, 0, none, []⟩ (r.1 - 1) :=
      ⟨List.chain'_nil, fun p hp' => absurd hp' (List.not_mem_nil p),
        fun hc => by simp at hc, fun hc => by simp at hc⟩
    have hloop := detectLoop_inv minF idleF (r :: rest) ⟨false, 0, none, []⟩ (r.1 - 1)
      hinit hp hb
    unfold detect_machine
    cases hlast : ((r :: rest).map (·.1)).getLast? with
    | none =>
      exact absurd hlast (by simp)
    | some lf =>
      have hlf : lastBound (r.1 - 1) (r :: rest) = lf := by
        unfold lastBound
        rw [hlast]
        rfl
      rw [hlf] at hloop
      obtain ⟨hch, hends, hrally, _⟩ := hloop
      dsimp only
      split_ifs with hcond
      · apply chain'_append_singleton _ _ hch
        intro q hq
        refine ⟨(hends q hq).1, ?_⟩
        exact (hrally hcond.1).2 q hq
      · exact hch

/-- C9 amended: the percent sequence of a full `segment_rallies_async` run is
monotonically non-decreasing with every value in [0, 100], and its final
notification carries percent 95 (the spec's claimed final 100 is emitted by
the transport collaborator, not by this engine). -/
theorem c9_progress_monotone (n : ℕ) :
    List.Chain' (· ≤ ·) (progressSeq n) ∧
    (∀ x ∈ progressSeq n, 0 ≤ x ∧ x ≤ 100) ∧
    (progressSeq n).getLast? = some 95 := by
  rcases Nat.eq_zero_or_pos n with hn0 | hn0
  · subst hn0
    have he : progressSeq 0 = [0, 40, 45, 60, 70, 95] := by decide
    rw [he]
    refine ⟨by norm_num [List.chain'_cons], ?_, by decide⟩
    intro x hx
    fin_cases hx <;> norm_num
  have hn : (0 : ℚ) < (n : ℚ) := by exact_mod_cast hn0
  have hterm : ∀ i : ℕ, i < n →
      70 ≤ 70 + ((i : ℚ) / (n : ℚ)) * 25 ∧ 70 + ((i : ℚ) / (n : ℚ)) * 25 ≤ 95 := by
    intro i hi
    have h0 : (0 : ℚ) ≤ (i : ℚ) / (n : ℚ) := by positivity
    have h1 : (i : ℚ) / (n : ℚ) ≤ 1 := by
      rw [div_le_one hn]
      exact_mod_cast hi.le
    constructor <;> nlinarith
  have hmap : ∀ x ∈ (List.range n).map (fun (i : ℕ) => 70 + ((i : ℚ) / (n : ℚ)) * 25),
      70 ≤ x ∧ x ≤ 95 := by
    intro x hx
    obtain ⟨i, hi, rfl⟩ := List.mem_map.mp hx
    exact hterm i (List.mem_range.mp hi)
  refine ⟨?_, ?_, ?_⟩
  · apply List.Pairwise.chain'
    unfold progressSeq
    rw [List.pairwise_append]
    refine ⟨?_, List.pairwise_singleton _ _, ?_⟩
    · rw [List.pairwise_append]
      refine ⟨by decide, ?_, ?_⟩
      · rw [List.pairwise_map]
        refine (List.pairwise_lt_range n).imp ?_
        intro i j hij
        have hij' : (i : ℚ) ≤ (j : ℚ) := by exact_mod_cast hij.le
        have : (i : ℚ) / (n : ℚ) ≤ (j : ℚ) / (n : ℚ) := by gcongr
        linarith
      · intro a ha b hb
        have ha' : a ≤ 70 := by fin_cases ha <;> norm_num
        have := (hmap b hb).1
        linarith
    · intro a ha b hb
      simp only [List.mem_singleton] at hb
      subst hb
      rcases List.mem_append.mp ha with h | h
      · have : a ≤ 70 := by fin_cases h <;> norm_num
        linarith
      · have := (hmap a h).2
        linarith
  · intro x hx
    unfold progressSeq at hx
    rcases List.mem_append.mp hx with h | h
    · rcases List.mem_append.mp h with h | h
      · fin_cases h <;> norm_num
      · have := hmap x h
        constructor <;> linarith [this.1, this.2]
    · simp only [List.mem_singleton] at h
      subst h
      norm_num
  · unfold progressSeq
    rw [List.getLast?_concat]

/-- C8 amended: each Rally built by the `segment_rallies` loop carries the
segment fields computed from its segment, leaves `shots`, `mistakes` and
`clip_path` at their empty defaults, but does NOT leave the other enrichment
fields empty: `winner`, `end_reason` and `description` are already populated
by the same loop. -/
theorem c8_field_ownership (fps : ℚ) (i : ℕ) (seg : ℤ × ℤ) (rEnd rWin : ℚ)
    (tIdx eIdx : ℕ) (ht : tIdx < 3) :
    (buildRally fps i seg rEnd rWin tIdx eIdx).rally_number = (i : ℤ) + 1 ∧
    (buildRally fps i seg rEnd rWin tIdx eIdx).start_frame = seg.1 ∧
    (buildRally fps i seg rEnd rWin tIdx eIdx).end_frame = seg.2 ∧
    (buildRally fps i seg rEnd rWin tIdx eIdx).start_time = (seg.1 : ℚ) / fps ∧
    (buildRally fps i seg rEnd rWin tIdx eIdx).end_time = (seg.2 : ℚ) / fps ∧
    (buildRally fps i seg rEnd rWin tIdx eIdx).duration = ((seg.2 - seg.1 : ℤ) : ℚ) / fps ∧
    (buildRally fps i seg rEnd rWin tIdx eIdx).shots = [] ∧
    (buildRally fps i seg rEnd rWin tIdx eIdx).mistakes = [] ∧
    (buildRally fps i seg rEnd rWin tIdx eIdx).clip_path = none ∧
    (buildRally fps i seg rEnd rWin tIdx eIdx).winner.isSome = true ∧
    (buildRally fps i seg rEnd rWin tIdx eIdx).end_reason.isSome = true ∧
    (buildRally fps i seg rEnd rWin tIdx eIdx).description ≠ "" := by
  refine ⟨rfl, rfl, rfl, rfl, rfl, rfl, rfl, rfl, rfl, rfl, rfl, ?_⟩
  simp only [buildRally]
  exact generate_rally_description_ne_empty _ tIdx eIdx ht

/-- Witness for `c8_field_ownership` at fps = 30, segment (0, 300), draws
0.5/0.5 and template/ending choices 0/0. -/
theorem c8_witness :
    (0 : ℕ) < 3 ∧
    ((buildRally 30 0 (0, 300) (1/2) (1/2) 0 0).rally_number = (0 : ℤ) + 1 ∧
      (buildRally 30 0 (0, 300) (1/2) (1/2) 0 0).start_frame = ((0 : ℤ), (300 : ℤ)).1 ∧
      (buildRally 30 0 (0, 300) (1/2) (1/2) 0 0).end_frame = ((0 : ℤ), (300 : ℤ)).2 ∧
      (buildRally 30 0 (0, 300) (1/2) (1/2) 0 0).start_time = ((((0 : ℤ), (300 : ℤ)).1 : ℤ) : ℚ) / 30 ∧
      (buildRally 30 0 (0, 300) (1/2) (1/2) 0 0).end_time = ((((0 : ℤ), (300 : ℤ)).2 : ℤ) : ℚ) / 30 ∧
      (buildRally 30 0 (0, 300) (1/2) (1/2) 0 0).duration =
        (((((0 : ℤ), (300 : ℤ)).2 - ((0 : ℤ), (300 : ℤ)).1 : ℤ)) : ℚ) / 30 ∧
      (buildRally 30 0 (0, 300) (1/2) (1/2) 0 0).shots = [] ∧
      (buildRally 30 0 (0, 300) (1/2) (1/2) 0 0).mistakes = [] ∧
      (buildRally 30 0 (0, 300) (1/2) (1/2) 0 0).clip_path = none ∧
      (buildRally 30 0 (0, 300) (1/2) (1/2) 0 0).winner.isSome = true ∧
      (buildRally 30 0 (0, 300) (1/2) (1/2) 0 0).end_reason.isSome = true ∧
      (buildRally 30 0 (0, 300) (1/2) (1/2) 0 0).description ≠ "") :=
  ⟨by decide, c8_field_ownership 30 0 (0, 300) (1/2) (1/2) 0 0 (by decide)⟩

/-- C1: the minimum-duration filter at line 197 compares the CURRENT frame
(`frame - rally_start > min_rally_frames`) but emits the span
`(rally_start, idle_start)` (line 198), so on `c1Motion` — whose active
classification is exactly the 6 samples at frames 18…28, a 1.0 s spike,
followed by persistent idle — the detector still emits the segment (18, 30),
whose duration 1.2 s is below `MIN_RALLY_DURATION = 2.0`.  This refutes both
parts of the claim: a sub-2 s active spike followed by persistent idle does
produce a segment, and that segment's duration is below the minimum. -/
theorem c1_min_duration_filter_violated :
    (classifyFlags 10 c1Motion).map Prod.fst =
        List.replicate 8 false ++ List.replicate 6 true ++ List.replicate 26 false ∧
    (∀ p ∈ (classifyFlags 10 c1Motion).drop 14, p.2 = true) ∧
    detect_rally_boundaries 10 100000 [] c1Motion = [(18, 30)] ∧
    ((30 - 18 : ℤ) : ℚ) / 10 < 2 := by
  refine ⟨?_, ?_, ?_, ?_⟩ <;> set_option maxRecDepth 100000 in decide

/-- C2: whichever producer runs — the Boundary Detector's state machine or the
Fallback Segmenter — every pair of consecutive segments in the output of
`detect_rally_boundaries` satisfies `end_frame ≤ next start_frame`, and the
list is sorted by strictly increasing `start_frame` (`SegRel`).  Hypotheses:
the motion series lists frames in strictly increasing order (as
`analyze_motion` produces them), fps ≥ 1, and the fallback's random draws lie
in the supports of the code's `random.uniform` calls. -/
theorem c2_segments_sorted_nonoverlapping (fps : ℚ) (frameCount : ℤ)
    (draws : List (ℚ × ℚ)) (motion : List MotionSample) (hfps : 1 ≤ fps)
    (hframes : List.Pairwise (· < ·) (motion.map (·.frame)))
    (hd : ∀ d ∈ draws, 5 ≤ d.1 ∧ 3 ≤ d.2 ∧ d.2 ≤ 10) :
    List.Chain' SegRel (detect_rally_boundaries fps frameCount draws motion) := by
  have hfall : List.Chain' SegRel (create_time_based_rallies fps frameCount draws) := by
    unfold create_time_based_rallies
    exact List.Chain'.imp (fun a b h => h.1)
      (fallbackLoop_chain fps frameCount ((frameCount : ℚ) / fps) hfps draws 2 le_rfl hd)
  simp only [detect_rally_boundaries]
  split_ifs with h1 h2
  · exact hfall
  · exact hfall
  · unfold machineSegs
    apply detect_machine_chain
    have hlen : (motion.map (·.frame)).length ≤ (classifyFlags fps motion).length := by
      rw [classifyFlags_length, List.length_map]
    have hfst : ((motion.map (·.frame)).zip (classifyFlags fps motion)).map Prod.fst
        = motion.map (·.frame) := List.map_fst_zip _ _ hlen
    rw [← hfst] at hframes
    exact List.pairwise_map.mp hframes

/-- Witness for `c2_segments_sorted_nonoverlapping` at fps = 10 on an empty
motion series (fallback path) with one draw pair (20, 5). -/
theorem c2_witness :
    ((1 : ℚ) ≤ 10 ∧ List.Pairwise (· < ·) (([] : List MotionSample).map (·.frame)) ∧
      (∀ d ∈ [((20 : ℚ), (5 : ℚ))], 5 ≤ d.1 ∧ 3 ≤ d.2 ∧ d.2 ≤ 10)) ∧
    List.Chain' SegRel (detect_rally_boundaries 10 1000 [(20, 5)] []) := by
  have ha : (1 : ℚ) ≤ 10 := by norm_num
  have hb : List.Pairwise (· < ·) (([] : List MotionSample).map (·.frame)) := by decide
  have hc : ∀ d ∈ [((20 : ℚ), (5 : ℚ))], 5 ≤ d.1 ∧ 3 ≤ d.2 ∧ d.2 ≤ 10 := by decide
  exact ⟨⟨ha, hb, hc⟩,
    c2_segments_sorted_nonoverlapping 10 1000 [(20, 5)] [] ha hb hc⟩

/-- C4: `detect_rally_boundaries` returns the fallback result exactly when the
motion series has fewer than 10 samples or the state machine emits no
segments, and otherwise returns the machine's segments; both fallback paths
return a list normally (no exception is modelled or raised). -/
theorem c4_fallback_conditions (fps : ℚ) (frameCount : ℤ) (draws : List (ℚ × ℚ))
    (motion : List MotionSample) :
    detect_rally_boundaries fps frameCount draws motion =
      if motion.length < 10 ∨ machineSegs fps motion = []
      then create_time_based_rallies fps frameCount draws
      else machineSegs fps motion := by
  unfold detect_rally_boundaries
  by_cases h1 : motion.length < 10
  · simp [h1]
  · by_cases h2 : machineSegs fps motion = [] <;> simp [h1, h2]

/-- C5: on the canonical alternating series at fps = 30 (4 s of motion 1000,
4 s of motion 0, three times) the Boundary Detector does NOT recover 3
segments of ≈4 s: the 15-sample (≈3 s) centered smoothing window erodes each
4 s idle block below the 3 s idle-persistence requirement, so all three
rallies merge and the detector emits the single segment (6, 612) of duration
20.2 s.  (The code's own comment at line 159 calls the window "~0.5 second";
it actually spans ≈3 s of the ≈5-samples-per-second series.) -/
theorem c5_alternating_series_not_recovered :
    detect_rally_boundaries 30 100000 [] c5Motion = [(6, 612)] ∧
    (detect_rally_boundaries 30 100000 [] c5Motion).length = 1 ∧
    ((612 - 6 : ℤ) : ℚ) / 30 = 101 / 5 := by
  have h : detect_rally_boundaries 30 100000 [] c5Motion = [(6, 612)] := by
    set_option maxRecDepth 1000000 in decide
  refine ⟨h, by rw [h]; rfl, by norm_num⟩

/-- C6: while `in_rally`, a non-idle sample clears the pending `idle_since`
marker (line 202); consequently on `c6Motion` — two active spikes separated by
an idle-classified gap spanning 14 frames = 1.4 s < IDLE_THRESHOLD = 3.0 s —
the detector emits the single merged segment (22, 104) instead of two. -/
theorem c6_idle_debounce_merge :
    (∀ (minF idleF : ℤ) (st : DetState) (f : ℤ) (a : Bool),
        st.inRally = true → (detectStep minF idleF st (f, a, false)).idleStart = none) ∧
    detect_rally_boundaries 10 100000 [] c6Motion = [(22, 104)] := by
  constructor
  · intro minF idleF st f a h
    simp [detectStep, h]
  · set_option maxRecDepth 100000 in decide

/-- Witness for the debounce conjunct of `c6_idle_debounce_merge` at a concrete
in-rally state. -/
theorem c6_witness :
    (⟨true, 2, some 4, []⟩ : DetState).inRally = true ∧
    (detectStep 20 30 ⟨true, 2, some 4, []⟩ (6, true, false)).idleStart = none :=
  ⟨rfl, c6_idle_debounce_merge.1 20 30 ⟨true, 2, some 4, []⟩ 6 true rfl⟩

/-- C3 counterexample: the code's thresholds use pandas `Series.std()`, the
SAMPLE standard deviation (`ddof = 1`), not the population standard deviation:
on the 10-sample series `c3Motion` the classification produced by the code
differs from the one the claim describes (sample index 1 is idle under the
population-std threshold but not under the code's sample-std threshold). -/
theorem c3_population_std_refuted :
    classifyFlags 10 c3Motion ≠ classifyFlagsPopStd 10 c3Motion ∧
    ((classifyFlags 10 c3Motion).getD 1 (false, false)).2 = false ∧
    ((classifyFlagsPopStd 10 c3Motion).getD 1 (false, false)).2 = true := by
  refine ⟨?_, ?_, ?_⟩ <;> set_option maxRecDepth 100000 in decide

/-- C3 amended: the Adaptive Thresholder computes the mean and the SAMPLE
standard deviation (pandas `std()` default, `ddof = 1`) of the smoothed
series; a sample is classified active iff its smoothed value strictly exceeds
`mean + 0.5·std`, idle iff it falls strictly below `mean − 0.3·std`, and
values between the two thresholds are classified as neither.  The square-root
comparisons of `activeFlag`/`idleFlag` are exactly these threshold
comparisons over the reals. -/
theorem c3_sample_std_thresholds (fps : ℚ) (motion : List MotionSample)
    (h2 : 2 ≤ motion.length) :
    classifyFlags fps motion =
      (smoothSeries fps motion).map (fun x =>
        (activeFlag (seriesMean (smoothSeries fps motion))
            (seriesVarSample (smoothSeries fps motion)) x,
          idleFlag (seriesMean (smoothSeries fps motion))
            (seriesVarSample (smoothSeries fps motion)) x)) ∧
    ∀ x ∈ smoothSeries fps motion,
      (activeFlag (seriesMean (smoothSeries fps motion))
          (seriesVarSample (smoothSeries fps motion)) x = true ↔
        ((seriesMean (smoothSeries fps motion) : ℝ) +
          (1/2) * Real.sqrt (seriesVarSample (smoothSeries fps motion)) < (x : ℝ))) ∧
      (idleFlag (seriesMean (smoothSeries fps motion))
          (seriesVarSample (smoothSeries fps motion)) x = true ↔
        ((x : ℝ) < (seriesMean (smoothSeries fps motion) : ℝ) -
          (3/10) * Real.sqrt (seriesVarSample (smoothSeries fps motion)))) ∧
      ((seriesMean (smoothSeries fps motion) : ℝ) -
          (3/10) * Real.sqrt (seriesVarSample (smoothSeries fps motion)) ≤ (x : ℝ) →
        (x : ℝ) ≤ (seriesMean (smoothSeries fps motion) : ℝ) +
          (1/2) * Real.sqrt (seriesVarSample (smoothSeries fps motion)) →
        activeFlag (seriesMean (smoothSeries fps motion))
            (seriesVarSample (smoothSeries fps motion)) x = false ∧
          idleFlag (seriesMean (smoothSeries fps motion))
            (seriesVarSample (smoothSeries fps motion)) x = false) := by
  refine ⟨rfl, ?_⟩
  intro x _
  have hlen : 2 ≤ (smoothSeries fps motion).length := by
    rw [smoothSeries_length]
    exact h2
  have hv : (0 : ℚ) ≤ seriesVarSample (smoothSeries fps motion) :=
    seriesVarSample_nonneg _ hlen
  have hvR : (0 : ℝ) ≤ (seriesVarSample (smoothSeries fps motion) : ℝ) := by
    exact_mod_cast hv
  have keyA : activeFlag (seriesMean (smoothSeries fps motion))
      (seriesVarSample (smoothSeries fps motion)) x = true ↔
      ((seriesMean (smoothSeries fps motion) : ℝ) +
        (1/2) * Real.sqrt (seriesVarSample (smoothSeries fps motion)) < (x : ℝ)) := by
    rw [activeFlag, decide_eq_true_eq,
      lt_add_mul_sqrt_iff (seriesMean (smoothSeries fps motion) : ℝ)
        (seriesVarSample (smoothSeries fps motion) : ℝ) (x : ℝ) (1/2) hvR (by norm_num),
      show ((1 : ℝ)/2) ^ 2 = 1/4 by norm_num]
    constructor
    · rintro ⟨ha, hb⟩
      refine ⟨by exact_mod_cast ha, ?_⟩
      have hbR := (Rat.cast_lt (K := ℝ)).mpr hb
      push_cast at hbR
      linarith
    · rintro ⟨ha, hb⟩
      refine ⟨by exact_mod_cast ha, ?_⟩
      apply (Rat.cast_lt (K := ℝ)).mp
      push_cast
      linarith
  have keyI : idleFlag (seriesMean (smoothSeries fps motion))
      (seriesVarSample (smoothSeries fps motion)) x = true ↔
      ((x : ℝ) < (seriesMean (smoothSeries fps motion) : ℝ) -
        (3/10) * Real.sqrt (seriesVarSample (smoothSeries fps motion))) := by
    rw [idleFlag, decide_eq_true_eq,
      lt_sub_mul_sqrt_iff (seriesMean (smoothSeries fps motion) : ℝ)
        (seriesVarSample (smoothSeries fps motion) : ℝ) (x : ℝ) (3/10) hvR (by norm_num),
      show ((3 : ℝ)/10) ^ 2 = 9/100 by norm_num]
    constructor
    · rintro ⟨ha, hb⟩
      refine ⟨by exact_mod_cast ha, ?_⟩
      have hbR := (Rat.cast_lt (K := ℝ)).mpr hb
      push_cast at hbR
      linarith
    · rintro ⟨ha, hb⟩
      refine ⟨by exact_mod_cast ha, ?_⟩
      apply (Rat.cast_lt (K := ℝ)).mp
      push_cast
      linarith
  refine ⟨keyA, keyI, ?_⟩
  intro hlow hhigh
  constructor
  · cases hA : activeFlag (seriesMean (smoothSeries fps motion))
        (seriesVarSample (smoothSeries fps motion)) x with
    | false => rfl
    | true => exact absurd (keyA.mp hA) (not_lt.mpr hhigh)
  · cases hI : idleFlag (seriesMean (smoothSeries fps motion))
        (seriesVarSample (smoothSeries fps motion)) x with
    | false => rfl
    | true => exact absurd (keyI.mp hI) (not_lt.mpr hlow)

/-- Witness for `c3_sample_std_thresholds` on the two-sample series
`c3wMotion`, at its smoothed value 5. -/
theorem c3_witness :
    2 ≤ c3wMotion.length ∧ (5 : ℚ) ∈ smoothSeries 10 c3wMotion ∧
    ((activeFlag (seriesMean (smoothSeries 10 c3wMotion))
        (seriesVarSample (smoothSeries 10 c3wMotion)) 5 = true ↔
      ((seriesMean (smoothSeries 10 c3wMotion) : ℝ) +
        (1/2) * Real.sqrt (seriesVarSample (smoothSeries 10 c3wMotion)) < ((5 : ℚ) : ℝ))) ∧
    (idleFlag (seriesMean (smoothSeries 10 c3wMotion))
        (seriesVarSample (smoothSeries 10 c3wMotion)) 5 = true ↔
      (((5 : ℚ) : ℝ) < (seriesMean (smoothSeries 10 c3wMotion) : ℝ) -
        (3/10) * Real.sqrt (seriesVarSample (smoothSeries 10 c3wMotion)))) ∧
    ((seriesMean (smoothSeries 10 c3wMotion) : ℝ) -
        (3/10) * Real.sqrt (seriesVarSample (smoothSeries 10 c3wMotion)) ≤ ((5 : ℚ) : ℝ) →
      ((5 : ℚ) : ℝ) ≤ (seriesMean (smoothSeries 10 c3wMotion) : ℝ) +
        (1/2) * Real.sqrt (seriesVarSample (smoothSeries 10 c3wMotion)) →
      activeFlag (seriesMean (smoothSeries 10 c3wMotion))
          (seriesVarSample (smoothSeries 10 c3wMotion)) 5 = false ∧
        idleFlag (seriesMean (smoothSeries 10 c3wMotion))
          (seriesVarSample (smoothSeries 10 c3wMotion)) 5 = false)) :=
  ⟨by decide, by decide,
    (c3_sample_std_thresholds 10 c3wMotion (by decide)).2 5 (by decide)⟩

/-- C7 counterexample: at fps = 13/5 (any non-integral 2·fps behaves alike,
e.g. broadcast 29.97), `current_time = 2` gives
`start_frame = int(2 * fps) = 5`, and 5 / fps = 25/13 < 2: the first fallback
segment starts strictly BEFORE 2 seconds into the video, refuting "starts at
or after 2 seconds".  The draw (20, 5) lies in the code's uniform supports
(duration ≈ 384.6 s ≥ 300 so avg = 25, range [15, 40]; gap range [3, 10]). -/
theorem c7_two_second_start_refuted :
    create_time_based_rallies (13/5) 1000 [(20, 5)] = [(5, 57)] ∧
    fallbackLo (13/5) 1000 ≤ 20 ∧ (20 : ℚ) ≤ fallbackHi (13/5) 1000 ∧
    ((5 : ℚ) / (13/5) < 2) := by
  refine ⟨?_, ?_, ?_, ?_⟩ <;> set_option maxRecDepth 100000 in decide

/-- C7 amended: for fps ≥ 1 and draws inside the code's uniform supports,
every fallback segment starts at frame `int(current_time·fps)` with
`current_time ≥ 2` — i.e. at or after frame `int(2·fps)`, within one frame of
the 2-second mark (exactly at it only when `2·fps` is integral) — its frame
length lies strictly between `lo·fps − 1` and `hi·fps + 1` where
`[lo, hi] = [max(5, avg−10), min(45, avg+15)]` and avg is 15 for videos under
300 s and 25 otherwise, consecutive segments are separated by a gap strictly
between `3·fps − 1` and `10·fps + 1` frames, and every appended segment's end
frame is below the frame count (generation stops before appending any other).
-/
theorem c7_fallback_geometry (fps : ℚ) (frameCount : ℤ) (draws : List (ℚ × ℚ))
    (hfps : 1 ≤ fps)
    (hd : ∀ d ∈ draws, fallbackLo fps frameCount ≤ d.1 ∧ d.1 ≤ fallbackHi fps frameCount ∧
      3 ≤ d.2 ∧ d.2 ≤ 10) :
    (∀ p ∈ create_time_based_rallies fps frameCount draws,
        pyInt (2 * fps) ≤ p.1 ∧ p.1 ≤ p.2 ∧ p.2 < frameCount ∧
        fallbackLo fps frameCount * fps - 1 < ((p.2 - p.1 : ℤ) : ℚ) ∧
        ((p.2 - p.1 : ℤ) : ℚ) < fallbackHi fps frameCount * fps + 1) ∧
    List.Chain' (fun p q : ℤ × ℤ =>
        3 * fps - 1 < ((q.1 - p.2 : ℤ) : ℚ) ∧ ((q.1 - p.2 : ℤ) : ℚ) < 10 * fps + 1)
      (create_time_based_rallies fps frameCount draws) := by
  have hfps0 : (0 : ℚ) < fps := lt_of_lt_of_le one_pos hfps
  have hlo5 : (5 : ℚ) ≤ fallbackLo fps frameCount := le_max_left _ _
  constructor
  · intro p hp
    unfold create_time_based_rallies at hp
    obtain ⟨ct', rd, hct', ⟨gap, hmem⟩, he1, he2, he3⟩ :=
      fallbackLoop_mem fps frameCount ((frameCount : ℚ) / fps) hfps0 draws 2 le_rfl
        (fun d hd' => ⟨by linarith [(hd d hd').1], by linarith [(hd d hd').2.2.1]⟩) p hp
    have hrd := hd (rd, gap) hmem
    have hlor : fallbackLo fps frameCount ≤ rd := hrd.1
    have hhir : rd ≤ fallbackHi fps frameCount := hrd.2.1
    have harg0 : (0 : ℚ) ≤ 2 * fps := by linarith
    have harg1 : (0 : ℚ) ≤ ct' * fps := mul_nonneg (by linarith) hfps0.le
    have harg2 : (0 : ℚ) ≤ (ct' + rd) * fps := mul_nonneg (by linarith) hfps0.le
    refine ⟨?_, ?_, he3, ?_, ?_⟩
    · rw [he1]
      apply pyInt_mono _ _ harg0
      exact mul_le_mul_of_nonneg_right hct' hfps0.le
    · rw [he1, he2]
      apply pyInt_mono _ _ harg1
      apply mul_le_mul_of_nonneg_right _ hfps0.le
      linarith
    · rw [he1, he2, pyInt_eq_floor _ harg1, pyInt_eq_floor _ harg2]
      have hfa : ((⌊ct' * fps⌋ : ℤ) : ℚ) ≤ ct' * fps := Int.floor_le _
      have hfb : (ct' + rd) * fps - 1 < ((⌊(ct' + rd) * fps⌋ : ℤ) : ℚ) := Int.sub_one_lt_floor _
      have hr : (ct' + rd) * fps = ct' * fps + rd * fps := by ring
      have hmul : fallbackLo fps frameCount * fps ≤ rd * fps :=
        mul_le_mul_of_nonneg_right hlor hfps0.le
      push_cast
      linarith
    · rw [he1, he2, pyInt_eq_floor _ harg1, pyInt_eq_floor _ harg2]
      have hfa : ct' * fps - 1 < ((⌊ct' * fps⌋ : ℤ) : ℚ) := Int.sub_one_lt_floor _
      have hfb : ((⌊(ct' + rd) * fps⌋ : ℤ) : ℚ) ≤ (ct' + rd) * fps := Int.floor_le _
      have hr : (ct' + rd) * fps = ct' * fps + rd * fps := by ring
      have hmul : rd * fps ≤ fallbackHi fps frameCount * fps :=
        mul_le_mul_of_nonneg_right hhir hfps0.le
      push_cast
      linarith
  · unfold create_time_based_rallies
    exact List.Chain'.imp (fun a b h => h.2)
      (fallbackLoop_chain fps frameCount ((frameCount : ℚ) / fps) hfps draws 2 le_rfl
        (fun d hd' => ⟨by linarith [(hd d hd').1], (hd d hd').2.2.1, (hd d hd').2.2.2⟩))

/-- Witness for `c7_fallback_geometry` at fps = 3, frame count 1000 (so
avg = 25, draw range [15, 40]) and the single draw pair (20, 5). -/
theorem c7_witness :
    ((1 : ℚ) ≤ 3 ∧
      (∀ d ∈ [((20 : ℚ), (5 : ℚ))], fallbackLo 3 1000 ≤ d.1 ∧ d.1 ≤ fallbackHi 3 1000 ∧
        3 ≤ d.2 ∧ d.2 ≤ 10)) ∧
    ((∀ p ∈ create_time_based_rallies 3 1000 [(20, 5)],
        pyInt (2 * 3) ≤ p.1 ∧ p.1 ≤ p.2 ∧ p.2 < 1000 ∧
        fallbackLo 3 1000 * 3 - 1 < ((p.2 - p.1 : ℤ) : ℚ) ∧
        ((p.2 - p.1 : ℤ) : ℚ) < fallbackHi 3 1000 * 3 + 1) ∧
      List.Chain' (fun p q : ℤ × ℤ =>
          3 * 3 - 1 < ((q.1 - p.2 : ℤ) : ℚ) ∧ ((q.1 - p.2 : ℤ) : ℚ) < 10 * 3 + 1)
        (create_time_based_rallies 3 1000 [(20, 5)])) :=
  ⟨⟨by norm_num, by decide⟩,
    c7_fallback_geometry 3 1000 [(20, 5)] (by norm_num) (by decide)⟩

/-- C8 counterexample: `segment_rallies` does not leave the enrichment fields
empty: the Rally built for segment (0, 300) at fps = 30 with draws 0.6 (end
reason) and 0.1 (winner) carries `winner = "Player A"`,
`end_reason = "in_court"` and a non-empty description. -/
theorem c8_enrichment_fields_populated :
    (buildRally 30 0 (0, 300) (6/10) (1/10) 0 0).winner = some "Player A" ∧
    (buildRally 30 0 (0, 300) (6/10) (1/10) 0 0).end_reason = some "in_court" ∧
    (buildRally 30 0 (0, 300) (6/10) (1/10) 0 0).description ≠ "" := by
  refine ⟨?_, ?_, ?_⟩ <;> set_option maxRecDepth 100000 in decide

/-- C9 counterexample: the notification sequence of a full
`segment_rallies_async` run ends with percent 95 (line 432), not 100 — here
for a run with 3 rally segments. -/
theorem c9_final_percent_not_100 :
    (progressSeq 3).getLast? = some 95 ∧ ((95 : ℚ) = 100 → False) := by
  refine ⟨by decide, by norm_num⟩

/-- C10: for a segment with `end_frame > start_frame` and positive fps, the
hit-point estimator returns at least `max(2, ·) ≥ 2` hit points, and each
returned frame is clamped into `[start_frame, end_frame]` (line 274). -/
theorem c10_hit_points_count_range (fps width height sps : ℚ) (jit : ℕ → ℤ)
    (xr yr : ℕ → ℚ) (s e : ℤ) (hse : s < e) (_hfps : 0 < fps) :
    2 ≤ (estimate_hits_in_rally fps width height sps jit xr yr s e).length ∧
    ∀ h ∈ estimate_hits_in_rally fps width height sps jit xr yr s e,
      s ≤ h.frame ∧ h.frame ≤ e := by
  constructor
  · have h2 : (2 : ℤ) ≤ max 2 (pyInt (((e - s : ℤ) : ℚ) / fps * sps)) := le_max_left _ _
    have hnn : (0 : ℤ) ≤ max 2 (pyInt (((e - s : ℤ) : ℚ) / fps * sps)) :=
      le_trans (by norm_num) h2
    simp only [estimate_hits_in_rally, List.length_map, List.length_range]
    exact (Int.le_toNat hnn).mpr h2
  · intro h hmem
    simp only [estimate_hits_in_rally, List.mem_map, List.mem_range] at hmem
    obtain ⟨i, _, rfl⟩ := hmem
    refine ⟨le_max_left _ _, max_le (le_of_lt hse) (min_le_left _ _)⟩

/-- Witness for `c10_hit_points_count_range` at a concrete segment. -/
theorem c10_witness :
    ((0 : ℤ) < 300 ∧ (0 : ℚ) < 30) ∧
    (2 ≤ (estimate_hits_in_rally 30 1920 1080 (4/5) (fun _ => 3) (fun _ => 1/2)
        (fun _ => 1/2) 0 300).length ∧
      ∀ h ∈ estimate_hits_in_rally 30 1920 1080 (4/5) (fun _ => 3) (fun _ => 1/2)
          (fun _ => 1/2) 0 300, 0 ≤ h.frame ∧ h.frame ≤ 300) :=
  ⟨⟨by decide, by norm_num⟩,
    c10_hit_points_count_range 30 1920 1080 (4/5) (fun _ => 3) (fun _ => 1/2)
      (fun _ => 1/2) 0 300 (by decide) (by norm_num)⟩

end RallySeg
